import Mathlib

/-!
Shallow embedding of the `blockchain-rust` core (`src/lib.rs`).

Machine integers (`u64`, `u32`, `usize`) are embedded as `Nat` carried
modulo `2 ^ 64` (resp. truncated to the relevant byte width when fed to the
hasher).  The hash engine used throughout the crate is Rust's
`std::collections::hash_map::DefaultHasher`, i.e. SipHash-1-3 with both keys
zero; it is embedded concretely below, operating on the exact byte streams
the `Hash` impls of the crate feed it on a little-endian 64-bit platform:

* `str`/`String`: the UTF-8 bytes followed by a single `0xff` byte;
* `u32`: 4 little-endian bytes; `u64`/`usize`: 8 little-endian bytes;
* `Vec<T>`: the length as `usize`, then each element in order.

The `f32` `amount` field of `Transaction` is only ever observed through the
dollars/cents decomposition performed by `impl Hash for Transaction` and
`impl Hash for Block`; floating-point arithmetic itself is not shallowly
embeddable, so the development is parametrised by the amount type `α`
together with the decomposition function `decompose : α → Nat × Nat`
producing the `(dollars, cents)` pair of `u32` values that the Rust code
derives from the `f32`.  Every definition downstream of the decomposition is
translated directly from the source.
-/

namespace BlockchainRust

/-- Left rotation of a 64-bit value, on `Nat` values below `2 ^ 64`. -/
def rotl64 (x n : Nat) : Nat :=
  ((x <<< n) ||| (x >>> (64 - n))) % 2 ^ 64

/-- Wrapping 64-bit addition. -/
def wadd64 (a b : Nat) : Nat :=
  (a + b) % 2 ^ 64

/-- The four 64-bit words of the SipHash internal state. -/
structure SipState where
  v0 : Nat
  v1 : Nat
  v2 : Nat
  v3 : Nat
deriving DecidableEq

/-- One SipHash round (`SIPROUND`). -/
def sipRound (s : SipState) : SipState :=
  let v0 := wadd64 s.v0 s.v1
  let v1 := rotl64 s.v1 13
  let v1 := v1 ^^^ v0
  let v0 := rotl64 v0 32
  let v2 := wadd64 s.v2 s.v3
  let v3 := rotl64 s.v3 16
  let v3 := v3 ^^^ v2
  let v0 := wadd64 v0 v3
  let v3 := rotl64 v3 21
  let v3 := v3 ^^^ v0
  let v2 := wadd64 v2 v1
  let v1 := rotl64 v1 17
  let v1 := v1 ^^^ v2
  let v2 := rotl64 v2 32
  ⟨v0, v1, v2, v3⟩

/-- Absorb one 8-byte message word: `v3 ^= m`, one round, `v0 ^= m`
(SipHash-1-3 has one compression round). -/
def sipCompress (s : SipState) (m : Nat) : SipState :=
  let t := sipRound { s with v3 := s.v3 ^^^ m }
  { t with v0 := t.v0 ^^^ m }

/-- Little-endian value of a byte list (first byte is least significant). -/
def le64 : List Nat → Nat
  | [] => 0
  | b :: bs => b + 256 * le64 bs

/-- Split a byte stream into its full 8-byte words (as 64-bit values) and
the remaining tail bytes, as SipHash consumes it. -/
def sipWords : List Nat → List Nat × List Nat
  | b0 :: b1 :: b2 :: b3 :: b4 :: b5 :: b6 :: b7 :: rest =>
    let p := sipWords rest
    (le64 [b0, b1, b2, b3, b4, b5, b6, b7] :: p.1, p.2)
  | rest => ([], rest)

/-- SipHash-1-3 with both keys zero over a byte stream: Rust's
`DefaultHasher` fed with exactly these bytes, then `finish()`. -/
def siphash13 (msg : List Nat) : Nat :=
  let init : SipState :=
    ⟨0x736f6d6570736575, 0x646f72616e646f6d, 0x6c7967656e657261, 0x7465646279746573⟩
  let p := sipWords msg
  let s := p.1.foldl sipCompress init
  let b := ((msg.length % 256) <<< 56) ||| le64 p.2
  let s := sipCompress s b
  let s := { s with v2 := s.v2 ^^^ 0xff }
  let s := sipRound (sipRound (sipRound s))
  (s.v0 ^^^ s.v1 ^^^ s.v2 ^^^ s.v3) % 2 ^ 64

/-- UTF-8 encoding of a single character. -/
def utf8Char (c : Char) : List Nat :=
  let n := c.toNat
  if n < 0x80 then [n]
  else if n < 0x800 then
    [0xC0 ||| (n >>> 6), 0x80 ||| (n &&& 0x3F)]
  else if n < 0x10000 then
    [0xE0 ||| (n >>> 12), 0x80 ||| ((n >>> 6) &&& 0x3F), 0x80 ||| (n &&& 0x3F)]
  else
    [0xF0 ||| (n >>> 18), 0x80 ||| ((n >>> 12) &&& 0x3F),
     0x80 ||| ((n >>> 6) &&& 0x3F), 0x80 ||| (n &&& 0x3F)]

/-- UTF-8 bytes of a string. -/
def utf8String (s : String) : List Nat :=
  (s.data.map utf8Char).flatten

/-- The `k` little-endian bytes of `n` (`n.to_le_bytes()` truncated to `k`
bytes); used for the `u32`/`u64`/`usize` writes of the Rust `Hash` impls. -/
def leBytes : Nat → Nat → List Nat
  | 0, _ => []
  | k + 1, n => n % 256 :: leBytes k (n / 256)

/-- Decimal digits of `n`, most significant first; the inner fuel parameter
(`n + 1` at the call site, always sufficient) makes the `n / 10` recursion
structural, mirroring how `u64::to_string` renders the value. -/
def decDigitsAux : Nat → Nat → List Nat
  | 0, _ => []
  | fuel + 1, n => if n < 10 then [n] else decDigitsAux fuel (n / 10) ++ [n % 10]

/-- Decimal digits of `n`, most significant first. -/
def decDigits (n : Nat) : List Nat :=
  decDigitsAux (n + 1) n

/-- ASCII bytes of `n.to_string()`. -/
def decBytes (n : Nat) : List Nat :=
  (decDigits n).map fun d => 48 + d

/-- The `Transaction` item (src/lib.rs): `to`, `from` and the monetary `amount`.
The doc comment at the top of the file explains why the amount type is a
parameter `α`; observing an amount always goes through a decomposition
function `α → Nat × Nat` yielding the `(dollars, cents)` pair of `u32`
values that the Rust `Hash` impls derive from the `f32` field. -/
structure Transaction (α : Type) where
  to_ : String
  from_ : String
  amount : α
deriving DecidableEq

/-- The `Block` item (src/lib.rs): transactions, own hash, hash anchor of the
previous block, and the stored proof of work. -/
structure Block (α : Type) where
  transactions : List (Transaction α)
  hash : Nat
  last_hash : Nat
  proof : Nat
deriving DecidableEq

/-- The `Blockchain` item (src/lib.rs): block count, pending queue, blocks. -/
structure Blockchain (α : Type) where
  size : Nat
  pending_transactions : List (Transaction α)
  blocks : List (Block α)
deriving DecidableEq

variable {α : Type}

/-- Byte stream fed to the hasher by `impl Hash for Transaction`:
`to` and `from` as strings (UTF-8 bytes plus the `0xff` terminator each),
then `dollars` and `cents` as `u32` little-endian bytes. -/
def Transaction.hashBytes (decompose : α → Nat × Nat) (t : Transaction α) : List Nat :=
  utf8String t.to_ ++ [0xff] ++ utf8String t.from_ ++ [0xff] ++
    leBytes 4 (decompose t.amount).1 ++ leBytes 4 (decompose t.amount).2

/-- Rust `Transaction::calculate_hash` applied to a `Transaction`:
`DefaultHasher` over the transaction's hash stream. -/
def Transaction.calculate_hash (decompose : α → Nat × Nat) (t : Transaction α) : Nat :=
  siphash13 (Transaction.hashBytes decompose t)

/-- Byte stream fed to the hasher by `impl Hash for Vec<Transaction>`
(std): the length as a `usize` (8 little-endian bytes), then each
transaction's stream in order.  This is the stream behind the `hash` field
computed by `Block::new` via `Block::calculate_hash(&transactions)`. -/
def vecTransactionsHashBytes (decompose : α → Nat × Nat)
    (ts : List (Transaction α)) : List Nat :=
  leBytes 8 ts.length ++ (ts.map (Transaction.hashBytes decompose)).flatten

/-- Rust `Block::calculate_hash` instantiated at `Vec<Transaction>`. -/
def Block.calculate_hash_transactions (decompose : α → Nat × Nat)
    (ts : List (Transaction α)) : Nat :=
  siphash13 (vecTransactionsHashBytes decompose ts)

/-- Byte stream fed to the hasher by `impl Hash for Block`: each
transaction's fields in order, with no length prefix (`last_hash`, `hash`
and `proof` are not hashed). -/
def Block.hashBytes (decompose : α → Nat × Nat) (b : Block α) : List Nat :=
  (b.transactions.map (Transaction.hashBytes decompose)).flatten

/-- Rust `Block::calculate_hash` instantiated at `Block` (used by
`Blockchain::add_block` on the last block of the chain). -/
def Block.calculate_hash_block (decompose : α → Nat × Nat) (b : Block α) : Nat :=
  siphash13 (Block.hashBytes decompose b)

/-- Rust `Block::calculate_string_hash`: `DefaultHasher` over a `String`; the
argument is the UTF-8 byte stream of that string, and hashing a string
appends the `0xff` terminator byte. -/
def Block.calculate_string_hash (x : List Nat) : Nat :=
  siphash13 (x ++ [0xff])

/-- Rust `Block::is_proof_valid`: render `proof` in decimal, reverse the
characters, take (up to) 6 of them, and require each to be the digit 0. -/
def Block.is_proof_valid (proof : Nat) : Bool :=
  ((decBytes proof).reverse.take 6).all fun chr => chr == 48

/-- The loop of `Block::calculate_proof_of_work`: try the candidate digest
for the current nonce (`last_hash.to_string() + proof.to_string()` hashed as
a string); if valid return that digest, otherwise `proof += 1` and retry.
The nonce is a `u64`, so the increment wraps modulo `2 ^ 64` (release-mode
Rust semantics; a debug build would abort on the overflow instead).  The
source loop has no fuel: the extra fuel argument makes the recursion
structural, with `none` meaning the loop is still running after `fuel`
iterations. -/
def Block.powAux (last_hash : Nat) : Nat → Nat → Option Nat
  | 0, _ => none
  | fuel + 1, proof =>
    if Block.is_proof_valid (Block.calculate_string_hash (decBytes last_hash ++ decBytes proof)) then
      some (Block.calculate_string_hash (decBytes last_hash ++ decBytes proof))
    else
      Block.powAux last_hash fuel ((proof + 1) % 2 ^ 64)

/-- Rust `Block::calculate_proof_of_work`: run the search starting at nonce 0.
Note the returned value is the final `hash` variable (the winning candidate
digest), not the nonce counter. -/
def Block.calculate_proof_of_work (fuel last_hash : Nat) : Option Nat :=
  Block.powAux last_hash fuel 0

/-- Rust `Block::new`: compute the proof of work for `last_hash`, the hash of
the transaction vector, and store the four fields. -/
def Block.new (decompose : α → Nat × Nat) (fuel : Nat)
    (transactions : List (Transaction α)) (last_hash : Nat) : Option (Block α) :=
  (Block.calculate_proof_of_work fuel last_hash).map fun proof =>
    { transactions := transactions
      hash := Block.calculate_hash_transactions decompose transactions
      last_hash := last_hash
      proof := proof }

/-- Rust `Blockchain::new`. -/
def Blockchain.new : Blockchain α :=
  { size := 0, pending_transactions := [], blocks := [] }

/-- Rust `Blockchain::get_size`. -/
def Blockchain.get_size (b : Blockchain α) : Nat :=
  b.size

/-- Rust `Blockchain::add_transaction`: push onto the pending queue. -/
def Blockchain.add_transaction (b : Blockchain α) (t : Transaction α) : Blockchain α :=
  { b with pending_transactions := b.pending_transactions ++ [t] }

/-- Rust `Blockchain::add_block` as written in the source: compute
`Block::calculate_hash(self.blocks.last().unwrap())` into a local and do
nothing else.  `none` models the `unwrap` panic on an empty chain; in the
`some` case the state is returned unchanged, because the body neither
appends a block, nor clears the queue, nor increments `size`. -/
def Blockchain.add_block (decompose : α → Nat × Nat) (b : Blockchain α) :
    Option (Blockchain α) :=
  match b.blocks.getLast? with
  | none => none
  | some blk =>
    let _last_hash := Block.calculate_hash_block decompose blk
    some b

/-- Linkage anchor for the next block after the blocks `bs`, starting the
chain at `anchor`: the digest of the last block of `bs` when it is
non-empty, otherwise `anchor`. -/
def anchorAfter (decompose : α → Nat × Nat) (anchor : Nat) (bs : List (Block α)) : Nat :=
  match bs.getLast? with
  | none => anchor
  | some blk => Block.calculate_hash_block decompose blk

/-- Modelled from the spec: the completed body of `Blockchain::add_block`,
which is missing from the source (the source computes the candidate anchor
and stops; spec section 9 records the absence).  Per sections 4.5 and 7:
the anchor is the last block's digest, or the genesis sentinel — a defined
constant, taken to be 0 — when `blocks` is empty; a block is built from the
whole pending queue via `Block::new`, appended, the queue cleared, `size`
incremented.  `none` means only that the proof-of-work search is still
running after `fuel` iterations. -/
def Blockchain.add_block_spec (decompose : α → Nat × Nat) (fuel : Nat)
    (b : Blockchain α) : Option (Blockchain α) :=
  (Block.new decompose fuel b.pending_transactions (anchorAfter decompose 0 b.blocks)).map
    fun blk =>
      { size := b.size + 1
        pending_transactions := []
        blocks := b.blocks ++ [blk] }

/-- States of the spec-completed ledger machine reachable from
`Blockchain::new()` by `add_transaction` and (completed) `add_block`. -/
inductive Reachable (decompose : α → Nat × Nat) : Blockchain α → Prop
  | init : Reachable decompose Blockchain.new
  | tx (b : Blockchain α) (t : Transaction α) :
      Reachable decompose b → Reachable decompose (b.add_transaction t)
  | blk (b b' : Blockchain α) (fuel : Nat) :
      Reachable decompose b → Blockchain.add_block_spec decompose fuel b = some b' →
      Reachable decompose b'

/-- Recursive form of the chain-linkage invariant: each block's `last_hash`
is the running anchor, which the block then updates to its own digest. -/
def chainLinkedFrom (decompose : α → Nat × Nat) (anchor : Nat) :
    List (Block α) → Bool
  | [] => true
  | blk :: rest =>
    (blk.last_hash == anchor) &&
      chainLinkedFrom decompose (Block.calculate_hash_block decompose blk) rest

/-- Decomposition used by concrete test states: the amount is already the
`(dollars, cents)` pair. -/
def decomposeId : Nat × Nat → Nat × Nat := id

/-- Decomposition used to exhibit distinct amounts that agree after the
hundredths place: the amount is carried in integer thousandths of a unit
(so `10004` stands for `10.004`), and is decomposed into whole units and
hundredths exactly as the spec describes. -/
def decomposeThousandths (n : Nat) : Nat × Nat :=
  (n / 1000, n % 1000 / 10)

/-- The transaction `Transaction::new("bob", "alice", 10.00)` of the spec
scenario, carried as its decomposed `(dollars, cents)` pair `(10, 0)`. -/
def bobTx : Transaction (Nat × Nat) :=
  { to_ := "bob", from_ := "alice", amount := (10, 0) }

/-- A ledger state holding one (artificial) block, used to evaluate
`add_block` on a non-empty chain. -/
def oneBlockState : Blockchain (Nat × Nat) :=
  { size := 1, pending_transactions := [bobTx], blocks := [⟨[], 0, 0, 0⟩] }

/-! ## Helper lemmas -/

/-- Whatever the proof-of-work loop returns is a candidate digest for some
nonce, and it satisfies the validity predicate. -/
theorem Block.powAux_spec (last_hash : Nat) :
    ∀ fuel nonce h : Nat, nonce < 2 ^ 64 → Block.powAux last_hash fuel nonce = some h →
      Block.is_proof_valid h = true ∧
        ∃ p, p < 2 ^ 64 ∧
          h = Block.calculate_string_hash (decBytes last_hash ++ decBytes p) := by
  intro fuel
  induction fuel with
  | zero => intro nonce h _ hsome; simp [Block.powAux] at hsome
  | succ fuel ih =>
    intro nonce h hlt hsome
    rw [Block.powAux] at hsome
    by_cases hvalid :
        Block.is_proof_valid
          (Block.calculate_string_hash (decBytes last_hash ++ decBytes nonce)) = true
    · rw [if_pos hvalid] at hsome
      refine ⟨?_, nonce, hlt, (Option.some.inj hsome).symm⟩
      rw [← Option.some.inj hsome]
      exact hvalid
    · rw [if_neg hvalid] at hsome
      exact ih _ h (Nat.mod_lt _ (by norm_num)) hsome

/-- A block built by `Block::new` stores the transaction-vector digest in
its `hash` field. -/
theorem Block.new_hash_eq {α : Type} {decompose : α → Nat × Nat} {fuel : Nat}
    {ts : List (Transaction α)} {lh : Nat} {b : Block α}
    (hnew : Block.new decompose fuel ts lh = some b) :
    b.hash = Block.calculate_hash_transactions decompose ts := by
  obtain ⟨p, _, rfl⟩ := Option.map_eq_some'.mp hnew
  rfl

/-- A block built by `Block::new` stores the given anchor in `last_hash`. -/
theorem Block.new_last_hash_eq {α : Type} {decompose : α → Nat × Nat} {fuel : Nat}
    {ts : List (Transaction α)} {lh : Nat} {b : Block α}
    (hnew : Block.new decompose fuel ts lh = some b) :
    b.last_hash = lh := by
  obtain ⟨p, _, rfl⟩ := Option.map_eq_some'.mp hnew
  rfl

/-- A block built by `Block::new` stores the given transaction list. -/
theorem Block.new_transactions_eq {α : Type} {decompose : α → Nat × Nat} {fuel : Nat}
    {ts : List (Transaction α)} {lh : Nat} {b : Block α}
    (hnew : Block.new decompose fuel ts lh = some b) :
    b.transactions = ts := by
  obtain ⟨p, _, rfl⟩ := Option.map_eq_some'.mp hnew
  rfl

/-- A block built by `Block::new` stores a proof-of-work result in
`proof`. -/
theorem Block.new_proof_eq {α : Type} {decompose : α → Nat × Nat} {fuel : Nat}
    {ts : List (Transaction α)} {lh : Nat} {b : Block α}
    (hnew : Block.new decompose fuel ts lh = some b) :
    Block.calculate_proof_of_work fuel lh = some b.proof := by
  obtain ⟨p, hp, rfl⟩ := Option.map_eq_some'.mp hnew
  exact hp

/-! ## Claim theorems -/

/-- C1: the claim says `add_block()` appends a Block built from the pending
queue, clears the queue, and increments `size`.  The code does none of
this: on an empty chain it panics (`none`), and otherwise it returns the
state unchanged.  This theorem evaluates the code: `add_block` never
produces a state different from its input. -/
theorem add_block_appends_nothing {α : Type} (decompose : α → Nat × Nat)
    (b : Blockchain α) :
    (b.blocks = [] → Blockchain.add_block decompose b = none) ∧
      ∀ b', Blockchain.add_block decompose b = some b' → b' = b := by
  constructor
  · intro hb
    simp [Blockchain.add_block, hb]
  · intro b' hb'
    rcases hl : b.blocks.getLast? with _ | blk
    · simp [Blockchain.add_block, hl] at hb'
    · simp [Blockchain.add_block, hl] at hb'
      exact hb'.symm

/-- C1 witness: on the fresh (empty-chain) ledger `add_block` panics, and
on a one-block ledger with a pending transaction it changes nothing. -/
theorem add_block_appends_nothing_witness :
    Blockchain.add_block decomposeId (Blockchain.new : Blockchain (Nat × Nat)) = none ∧
      oneBlockState = oneBlockState :=
  ⟨(add_block_appends_nothing decomposeId Blockchain.new).1 rfl,
   (add_block_appends_nothing decomposeId oneBlockState).2 oneBlockState rfl⟩

/-- C2: the claim (and spec sections 7 and 9) require the empty-chain
anchor request to resolve to the genesis sentinel without panicking.  The
code calls `self.blocks.last().unwrap()`, which panics: evaluating the
spec's own scenario — fresh ledger, one queued transaction, `add_block()` —
yields the panic (`none`), not a one-block ledger. -/
theorem add_block_on_empty_chain_panics :
    Blockchain.add_block decomposeId
      (Blockchain.add_transaction Blockchain.new bobTx) = none := rfl

/-- C3 counterexample: a concrete block built by `Block::new` (anchor
206059, found at nonce 1) whose stored `proof` is the winning digest, not
the nonce; hashing `last_hash.to_string() + proof.to_string()` therefore
gives a digest that fails the validity predicate. -/
theorem hash_of_anchor_and_stored_proof_not_valid :
    Block.new decomposeId 2 [] 206059 =
        some ⟨[], 13646096770106105413, 206059, 16379693412397000000⟩ ∧
      Block.is_proof_valid
          (Block.calculate_string_hash
            (decBytes 206059 ++ decBytes 16379693412397000000)) = false :=
  ⟨rfl, rfl⟩

/-- C3 amended: for every block produced by `Block::new`, the stored
`proof` is itself the winning candidate digest: it satisfies the validity
predicate directly, and it equals the string hash of the anchor
concatenated with some (discarded) nonce. -/
theorem block_new_stored_proof_is_digest {α : Type} (decompose : α → Nat × Nat)
    (fuel : Nat) (ts : List (Transaction α)) (lh : Nat) (b : Block α)
    (hnew : Block.new decompose fuel ts lh = some b) :
    Block.is_proof_valid b.proof = true ∧
      ∃ nonce, nonce < 2 ^ 64 ∧
        b.proof = Block.calculate_string_hash (decBytes b.last_hash ++ decBytes nonce) := by
  have hlh := Block.new_last_hash_eq hnew
  have hp := Block.new_proof_eq hnew
  rw [hlh]
  exact Block.powAux_spec lh fuel 0 b.proof (by norm_num) hp

/-- C3 amended witness: the block sealed at anchor 20070 (nonce 2). -/
theorem block_new_stored_proof_is_digest_witness :
    Block.new decomposeId 3 [] 20070 =
        some ⟨[], 13646096770106105413, 20070, 486985940451000000⟩ ∧
      (Block.is_proof_valid 486985940451000000 = true ∧
        ∃ nonce, nonce < 2 ^ 64 ∧
          (486985940451000000 : Nat) =
            Block.calculate_string_hash (decBytes 20070 ++ decBytes nonce)) :=
  ⟨rfl, block_new_stored_proof_is_digest decomposeId 3 [] 20070
    ⟨[], 13646096770106105413, 20070, 486985940451000000⟩ rfl⟩

/-- C5: two transactions with equal `to` and `from` whose amounts decompose
to the same `(dollars, cents)` pair feed the hasher identical byte streams,
hence hash identically — the digest depends on the amount only through the
truncated decomposition. -/
theorem transaction_hash_depends_only_on_decomposition {α : Type}
    (decompose : α → Nat × Nat) (t1 t2 : Transaction α)
    (hto : t1.to_ = t2.to_) (hfrom : t1.from_ = t2.from_)
    (hamount : decompose t1.amount = decompose t2.amount) :
    Transaction.calculate_hash decompose t1 = Transaction.calculate_hash decompose t2 := by
  simp only [Transaction.calculate_hash, Transaction.hashBytes, hto, hfrom, hamount]

/-- C5 witness: amounts 10.004 and 10.006 (carried in thousandths), both
decomposing to 10 dollars and 0 cents, hash identically despite being
different amounts. -/
theorem transaction_hash_depends_only_on_decomposition_witness :
    decomposeThousandths 10004 = decomposeThousandths 10006 ∧
      Transaction.calculate_hash decomposeThousandths ⟨"bob", "alice", 10004⟩ =
        Transaction.calculate_hash decomposeThousandths ⟨"bob", "alice", 10006⟩ :=
  ⟨rfl, transaction_hash_depends_only_on_decomposition decomposeThousandths
    ⟨"bob", "alice", 10004⟩ ⟨"bob", "alice", 10006⟩ rfl rfl rfl⟩

/-- C7: blocks built by `Block::new` from equal transaction lists have
identical `hash` fields, whatever their anchors (and hence proofs): the
`hash` field is computed from the transaction vector only. -/
theorem block_hash_ignores_last_hash_and_proof {α : Type} (decompose : α → Nat × Nat)
    (ts1 ts2 : List (Transaction α)) (lh1 lh2 fuel1 fuel2 : Nat) (b1 b2 : Block α)
    (hts : ts1 = ts2)
    (h1 : Block.new decompose fuel1 ts1 lh1 = some b1)
    (h2 : Block.new decompose fuel2 ts2 lh2 = some b2) :
    b1.hash = b2.hash := by
  rw [Block.new_hash_eq h1, Block.new_hash_eq h2, hts]

/-- C7 witness: the same single-transaction batch sealed at the two anchors
206059 and 20070 yields two blocks with different `last_hash` and `proof`
but the identical `hash` field. -/
theorem block_hash_ignores_last_hash_and_proof_witness :
    Block.new decomposeId 2 [bobTx] 206059 =
        some ⟨[bobTx], 8950568627201821456, 206059, 16379693412397000000⟩ ∧
      Block.new decomposeId 3 [bobTx] 20070 =
        some ⟨[bobTx], 8950568627201821456, 20070, 486985940451000000⟩ ∧
      (Block.mk [bobTx] 8950568627201821456 206059 16379693412397000000).hash =
        (Block.mk [bobTx] 8950568627201821456 20070 486985940451000000).hash :=
  ⟨rfl, rfl,
   block_hash_ignores_last_hash_and_proof decomposeId [bobTx] [bobTx] 206059 20070 2 3
     ⟨[bobTx], 8950568627201821456, 206059, 16379693412397000000⟩
     ⟨[bobTx], 8950568627201821456, 20070, 486985940451000000⟩ rfl rfl rfl⟩

/-- C8: the claim requires nonce exhaustion to surface an explicit failure.
The code has no failure channel at all: when the `u64` counter reaches its
maximum and the candidate is invalid, `proof += 1` wraps to 0 (release-mode
semantics) and the loop keeps retrying the very same candidates — shown
here at anchor 0, whose candidate at nonce `2^64 - 1` is invalid. -/
theorem pow_nonce_wraps_instead_of_failing (fuel : Nat) :
    Block.powAux 0 (fuel + 1) (2 ^ 64 - 1) = Block.powAux 0 fuel 0 := by
  have hinv : Block.is_proof_valid
      (Block.calculate_string_hash (decBytes 0 ++ decBytes (2 ^ 64 - 1))) = false := by
    decide
  have hmod : ((2 ^ 64 - 1) + 1) % 2 ^ 64 = 0 := by norm_num
  rw [Block.powAux, hinv, hmod]
  simp

/-- C10: whenever `calculate_proof_of_work` terminates, the returned `u64`
is itself the winning candidate digest — it satisfies the validity
predicate and equals the string hash of the anchor concatenated with the
decimal rendering of some nonce (which is not returned). -/
theorem calculate_proof_of_work_returns_valid_digest (fuel anchor h : Nat)
    (hsome : Block.calculate_proof_of_work fuel anchor = some h) :
    Block.is_proof_valid h = true ∧
      ∃ nonce, nonce < 2 ^ 64 ∧
        h = Block.calculate_string_hash (decBytes anchor ++ decBytes nonce) :=
  Block.powAux_spec anchor fuel 0 h (by norm_num) hsome

/-- C10 witness: the search at anchor 108367 terminates within 7 steps
(nonce 6) and returns the digest 16241823913929000000, whose decimal string
ends in six zero digits. -/
theorem calculate_proof_of_work_returns_valid_digest_witness :
    Block.calculate_proof_of_work 7 108367 = some 16241823913929000000 ∧
      (Block.is_proof_valid 16241823913929000000 = true ∧
        ∃ nonce, nonce < 2 ^ 64 ∧
          (16241823913929000000 : Nat) =
            Block.calculate_string_hash (decBytes 108367 ++ decBytes nonce)) :=
  ⟨rfl, calculate_proof_of_work_returns_valid_digest 7 108367 16241823913929000000 rfl⟩

/-! ## Decimal-digit lemmas (for the short-digest analysis) -/

/-- If every decimal digit of `n` is zero, then `n` is zero (`to_string`
renders no leading zeros). -/
theorem decDigitsAux_all_zero (fuel : Nat) :
    ∀ n, n < fuel → ((decDigitsAux fuel n).all fun d => d == 0) = true → n = 0 := by
  induction fuel with
  | zero => intro n hn _; omega
  | succ fuel ih =>
    intro n hn hall
    by_cases h10 : n < 10
    · simp only [decDigitsAux, if_pos h10, List.all_cons, List.all_nil, Bool.and_true,
        beq_iff_eq] at hall
      exact hall
    · exfalso
      simp only [decDigitsAux, if_neg h10, List.all_append, Bool.and_eq_true] at hall
      have hdiv : n / 10 < n := Nat.div_lt_self (by omega) (by omega)
      have h0 : n / 10 = 0 := ih (n / 10) (by omega) hall.1
      have h1 : 1 ≤ n / 10 := (Nat.one_le_div_iff (by omega)).mpr (by omega)
      omega

/-- If every character of `n.to_string()` is the digit 0, then `n = 0`. -/
theorem decBytes_all_zero_imp (n : Nat) :
    ((decBytes n).all fun c => c == 48) = true → n = 0 := by
  intro h
  apply decDigitsAux_all_zero (n + 1) n (Nat.lt_succ_self n)
  rw [List.all_eq_true]
  simp only [decBytes, decDigits, List.all_map] at h
  rw [List.all_eq_true] at h
  intro d hd
  have h2 := h d hd
  simp only [Function.comp_apply, beq_iff_eq] at h2 ⊢
  omega

/-! ## Claim theorems (continued) -/

/-- C4 counterexample: the digest 5 has a decimal string of fewer than 6
characters, yet the validity predicate rejects it — `.take(6)` on the
reversed characters inspects every character present, and `5 != '0'`. -/
theorem short_digest_five_rejected :
    (decBytes 5).length < 6 ∧ Block.is_proof_valid 5 = false :=
  ⟨by decide, by decide⟩

/-- C4 amended: for a digest whose decimal string is shorter than 6
characters the predicate checks all the characters present, so it holds
exactly when every digit is 0 — that is, only for the digest 0 (the claim
asserted it holds vacuously for every short digest). -/
theorem is_proof_valid_short_digest_iff_zero (n : Nat)
    (hlen : (decBytes n).length < 6) :
    (Block.is_proof_valid n = true ↔ n = 0) := by
  constructor
  · intro hv
    apply decBytes_all_zero_imp
    unfold Block.is_proof_valid at hv
    rw [List.take_of_length_le (by simpa using Nat.le_of_lt hlen)] at hv
    rwa [List.all_reverse] at hv
  · rintro rfl
    decide

/-- C4 amended witness: the one-character digest 7. -/
theorem is_proof_valid_short_digest_iff_zero_witness :
    (decBytes 7).length < 6 ∧ (Block.is_proof_valid 7 = true ↔ 7 = 0) :=
  ⟨by decide, is_proof_valid_short_digest_iff_zero 7 (by decide)⟩

/-! ## Chain-linkage machinery for the spec-completed ledger machine -/

/-- Appending a block moves the running anchor to that block's digest. -/
theorem anchorAfter_concat {α : Type} (decompose : α → Nat × Nat) (anchor : Nat)
    (bs : List (Block α)) (x : Block α) :
    anchorAfter decompose anchor (bs ++ [x]) = Block.calculate_hash_block decompose x := by
  simp [anchorAfter, List.getLast?_concat]

/-- The anchor after `y :: bs` is the anchor after `bs` started at `y`'s
digest. -/
theorem anchorAfter_cons {α : Type} (decompose : α → Nat × Nat) (anchor : Nat)
    (y : Block α) (bs : List (Block α)) :
    anchorAfter decompose anchor (y :: bs) =
      anchorAfter decompose (Block.calculate_hash_block decompose y) bs := by
  cases bs with
  | nil => rfl
  | cons b bs =>
    rcases hl : (b :: bs).getLast? with _ | blk
    · exact absurd (List.getLast?_eq_none_iff.mp hl) (by simp)
    · unfold anchorAfter
      rw [List.getLast?_cons_cons, hl]

/-- Linkage of `bs ++ [x]` is linkage of `bs` plus the new block anchoring
to the digest of the previous tip. -/
theorem chainLinkedFrom_concat {α : Type} (decompose : α → Nat × Nat)
    (bs : List (Block α)) (anchor : Nat) (x : Block α) :
    chainLinkedFrom decompose anchor (bs ++ [x]) =
      (chainLinkedFrom decompose anchor bs &&
        (x.last_hash == anchorAfter decompose anchor bs)) := by
  induction bs generalizing anchor with
  | nil => simp [chainLinkedFrom, anchorAfter]
  | cons y bs ih =>
    simp only [List.cons_append, chainLinkedFrom, List.append_eq, ih, anchorAfter_cons,
      Bool.and_assoc]

/-- Every reachable state of the spec-completed machine has a linked
chain. -/
theorem reachable_chainLinked {α : Type} (decompose : α → Nat × Nat)
    (c : Blockchain α) (h : Reachable decompose c) :
    chainLinkedFrom decompose 0 c.blocks = true := by
  induction h with
  | init => rfl
  | tx b t hb ih => exact ih
  | blk b b' fuel hb hab ih =>
    obtain ⟨blk0, hblk, rfl⟩ := Option.map_eq_some'.mp hab
    show chainLinkedFrom decompose 0 (b.blocks ++ [blk0]) = true
    rw [chainLinkedFrom_concat]
    simp [ih, Block.new_last_hash_eq hblk]

/-- In a linked chain the head block anchors to the start anchor. -/
theorem chainLinkedFrom_get_zero {α : Type} (decompose : α → Nat × Nat)
    (bs : List (Block α)) (anchor : Nat)
    (h : chainLinkedFrom decompose anchor bs = true) (h0 : 0 < bs.length) :
    (bs.get ⟨0, h0⟩).last_hash = anchor := by
  cases bs with
  | nil => exact absurd h0 (by simp)
  | cons y bs =>
    simp only [chainLinkedFrom, Bool.and_eq_true, beq_iff_eq] at h
    exact h.1

/-- In a linked chain each later block anchors to the digest of its
predecessor. -/
theorem chainLinkedFrom_get_succ {α : Type} (decompose : α → Nat × Nat) :
    ∀ (bs : List (Block α)) (anchor i : Nat) (hi : i + 1 < bs.length),
      chainLinkedFrom decompose anchor bs = true →
      (bs.get ⟨i + 1, hi⟩).last_hash =
        Block.calculate_hash_block decompose (bs.get ⟨i, by omega⟩) := by
  intro bs
  induction bs with
  | nil => intro anchor i hi _; exact absurd hi (by simp)
  | cons y bs ih =>
    intro anchor i hi hc
    simp only [chainLinkedFrom, Bool.and_eq_true, beq_iff_eq] at hc
    cases i with
    | zero =>
      have h0 : 0 < bs.length := by
        simpa using Nat.lt_of_succ_lt_succ hi
      simp only [List.get_cons_succ]
      exact chainLinkedFrom_get_zero decompose bs _ hc.2 h0
    | succ j =>
      simp only [List.get_cons_succ]
      exact ih (Block.calculate_hash_block decompose y) j
        (Nat.lt_of_succ_lt_succ hi) hc.2

/-! ## Claim theorems (reachability) -/

/-- C6: in every state of the spec-completed ledger machine reachable from
`Blockchain::new()` by `add_transaction` and `add_block`, the first block
anchors to the genesis sentinel 0, and every later block anchors to the
hash-engine digest of its predecessor. -/
theorem chain_linkage_invariant {α : Type} (decompose : α → Nat × Nat)
    (c : Blockchain α) (h : Reachable decompose c) :
    (∀ h0 : 0 < c.blocks.length, (c.blocks.get ⟨0, h0⟩).last_hash = 0) ∧
      ∀ (i : Nat) (hi : i + 1 < c.blocks.length),
        (c.blocks.get ⟨i + 1, hi⟩).last_hash =
          Block.calculate_hash_block decompose (c.blocks.get ⟨i, by omega⟩) := by
  have hc := reachable_chainLinked decompose c h
  exact ⟨fun h0 => chainLinkedFrom_get_zero decompose c.blocks 0 hc h0,
    fun i hi => chainLinkedFrom_get_succ decompose c.blocks 0 i hi hc⟩

/-- C6 witness: the invariant at the initial state. -/
theorem chain_linkage_invariant_witness :
    (∀ h0 : 0 < (Blockchain.new : Blockchain (Nat × Nat)).blocks.length,
        ((Blockchain.new : Blockchain (Nat × Nat)).blocks.get ⟨0, h0⟩).last_hash = 0) ∧
      ∀ (i : Nat) (hi : i + 1 < (Blockchain.new : Blockchain (Nat × Nat)).blocks.length),
        ((Blockchain.new : Blockchain (Nat × Nat)).blocks.get ⟨i + 1, hi⟩).last_hash =
          Block.calculate_hash_block decomposeId
            ((Blockchain.new : Blockchain (Nat × Nat)).blocks.get ⟨i, by omega⟩) :=
  chain_linkage_invariant decomposeId Blockchain.new Reachable.init

/-- C9: in every state of the spec-completed ledger machine reachable from
`Blockchain::new()`, the `size` field equals the number of blocks, and
`get_size()` returns that common value. -/
theorem size_tracks_blocks_length {α : Type} (decompose : α → Nat × Nat)
    (c : Blockchain α) (h : Reachable decompose c) :
    Blockchain.get_size c = c.blocks.length ∧ c.size = c.blocks.length := by
  suffices hs : c.size = c.blocks.length from ⟨hs, hs⟩
  induction h with
  | init => rfl
  | tx b t hb ih => exact ih
  | blk b b' fuel hb hab ih =>
    obtain ⟨blk0, hblk, rfl⟩ := Option.map_eq_some'.mp hab
    show b.size + 1 = (b.blocks ++ [blk0]).length
    simp [ih]

/-- C9 witness: the invariant at the initial state. -/
theorem size_tracks_blocks_length_witness :
    Blockchain.get_size (Blockchain.new : Blockchain (Nat × Nat)) =
        (Blockchain.new : Blockchain (Nat × Nat)).blocks.length ∧
      (Blockchain.new : Blockchain (Nat × Nat)).size =
        (Blockchain.new : Blockchain (Nat × Nat)).blocks.length :=
  size_tracks_blocks_length decomposeId Blockchain.new Reachable.init

end BlockchainRust
